import Mathlib

/-!
Verification of the Voltcraft VC-830 / FS9922-DMM4 serial protocol decoder
(`vc830.c`).  The decoder-relevant parts of the C source are shallowly
embedded below: bytes are naturals, C strings are Lean `String`s, the C
`double` computations (`atof`, the SI multiplier, `snprintf "%f"`) are
modelled over exact rationals, and the two fallible operations
(`decodeFS9922Paket`, `read14BytesPaket`) return their error codes
explicitly.
-/

namespace VC830

/- The library marks the arithmetic of `Rat` irreducible; concrete frames
are evaluated inside proofs by kernel reduction, which needs it unfolded. -/
attribute [local semireducible] Rat.mul Rat.inv Rat.add Rat.sub Rat.ofScientific

/-- A wire frame: exactly 14 bytes (`byte buf[14]` in the C source).  Each
field `bN` is the value of `buf[N]`. -/
structure Frame where
  b0 : Nat
  b1 : Nat
  b2 : Nat
  b3 : Nat
  b4 : Nat
  b5 : Nat
  b6 : Nat
  b7 : Nat
  b8 : Nat
  b9 : Nat
  b10 : Nat
  b11 : Nat
  b12 : Nat
  b13 : Nat
deriving DecidableEq

/-- The three error returns of `decodeFS9922Paket`: `-1` (framing: space or
CRLF missing), `-2` (sign byte invalid), `-3` (a digit byte is not an ASCII
digit). -/
inductive DecodeError where
  | frameFormat
  | invalidSign
  | invalidDigit
deriving DecidableEq

/-- The output record `struct Vc830`.  `receivedAt` (wall-clock time) is not
modelled.  `pfx` is the C field `prefix`, `rawDisplay` the C field
`rawRisplay`.  The C keeps the numeric SI value `vSi` in a local and stores
only its formatting; the specification's record exposes it as `siValue`, so
it is carried here as a field as well. -/
structure Vc830 where
  sign : Char
  rawDisplay : String
  mode : String
  unit : String
  pfx : String
  fullUnit : String
  info : String
  barGraph : Nat
  barGraphIsShown : Bool
  batteryWarning : Bool
  autoRangeActive : Bool
  holdActive : Bool
  deltaActive : Bool
  overflow : Bool
  formatedValue : String
  formatedSiValue : String
  siValue : ℚ
deriving DecidableEq

instance : DecidableEq (Except DecodeError Vc830)
  | Except.error a, Except.error b =>
    if h : a = b then Decidable.isTrue (by rw [h])
    else Decidable.isFalse (fun hh => h (Except.error.inj hh))
  | Except.error _, Except.ok _ => Decidable.isFalse (fun hh => Except.noConfusion hh)
  | Except.ok _, Except.error _ => Decidable.isFalse (fun hh => Except.noConfusion hh)
  | Except.ok a, Except.ok b =>
    if h : a = b then Decidable.isTrue (by rw [h])
    else Decidable.isFalse (fun hh => h (Except.ok.inj hh))

/-- The all-zero record produced by `memset(vc830Data, 0, sizeof(*vc830Data))`
at the top of `decodeFS9922Paket`: every string empty, every flag false,
the sign character is the NUL byte. -/
def zeroVc830 : Vc830 where
  sign := Char.ofNat 0
  rawDisplay := ""
  mode := ""
  unit := ""
  pfx := ""
  fullUnit := ""
  info := ""
  barGraph := 0
  barGraphIsShown := false
  batteryWarning := false
  autoRangeActive := false
  holdActive := false
  deltaActive := false
  overflow := false
  formatedValue := ""
  formatedSiValue := ""
  siValue := 0

/-- C `strinsert(srcAndDest, pos, toInsert)`: insert `ins` at position `pos`
(`strncpy` of the first `pos` chars, then `toInsert`, then the rest). -/
def strinsert (s : String) (pos : Nat) (ins : String) : String :=
  String.mk (s.toList.take pos ++ ins.toList ++ s.toList.drop pos)

/-- The string-accumulation effect of C `checkInfo(buf, sb, bit, label, out)`:
if the given bit of the status byte is set, append the label to `out`,
space-separated when `out` is nonempty.  The boolean that `checkInfo`
returns (used for the flag fields) is just `Nat.testBit` of the same bit. -/
def checkInfoStr (out : String) (sb : Nat) (bit : Nat) (label : String) : String :=
  if Nat.testBit sb bit then (if out = "" then label else out ++ " " ++ label) else out

/-- C `trimZeros`: repeatedly delete a trailing `'0'`, keeping it when the
character just before it is the decimal point (and stopping at any other
character).  `trimZerosRev` works on the reversed character list, so the
head is the last character and `t.head?` the one before it. -/
def trimZerosRev : List Char → List Char
  | [] => []
  | c :: t => if c = '0' ∧ t.head? ≠ some '.' then trimZerosRev t else c :: t

/-- C `trimZeros` on a string (see `trimZerosRev`). -/
def trimZeros (s : String) : String :=
  String.mk (trimZerosRev s.toList.reverse).reverse

/-- The leading-zero strip used for `vWithUnit`:
`while (*vz == '0' && *(vz + 1) != '.') vz++;` — drop a leading `'0'`
unless the next character is the decimal point (at the end of the string
the C code compares against the NUL terminator, which is not `'.'`). -/
def stripLeadingZeros : List Char → List Char
  | [] => []
  | c :: t => if c = '0' ∧ t.head? ≠ some '.' then stripLeadingZeros t else c :: t

/-- Status byte SB1 bits 4,3,2,1 accumulate into `mode`, in the order of the
C source: DC, AC, REL, HOLD. -/
def modeStr (f : Frame) : String :=
  let s := checkInfoStr "" f.b7 4 "DC"
  let s := checkInfoStr s f.b7 3 "AC"
  let s := checkInfoStr s f.b7 2 "REL"
  let s := checkInfoStr s f.b7 1 "HOLD"
  s

/-- Bits accumulating into `info`, in the order of the C source:
SB1 bit 5 (AUTO), then SB2 bits 7,6,5,4,3,2,0, then SB3 bits 3,2,0. -/
def infoStr (f : Frame) : String :=
  let s := checkInfoStr "" f.b7 5 "AUTO"
  let s := checkInfoStr s f.b8 7 "Diode"
  let s := checkInfoStr s f.b8 6 "Z2"
  let s := checkInfoStr s f.b8 5 "MAX"
  let s := checkInfoStr s f.b8 4 "MIN"
  let s := checkInfoStr s f.b8 3 "APO"
  let s := checkInfoStr s f.b8 2 "Bat"
  let s := checkInfoStr s f.b8 0 "Z3"
  let s := checkInfoStr s f.b9 3 "Beep"
  let s := checkInfoStr s f.b9 2 "Diode"
  let s := checkInfoStr s f.b9 0 "Z4"
  s

/-- Bits accumulating into the C `prefix` buffer, in source order:
SB2 bit 1 (n), then SB3 bits 7 (µ), 6 (m), 5 (k), 4 (M), 1 (%). -/
def pfxStr (f : Frame) : String :=
  let s := checkInfoStr "" f.b8 1 "n"
  let s := checkInfoStr s f.b9 7 "µ"
  let s := checkInfoStr s f.b9 6 "m"
  let s := checkInfoStr s f.b9 5 "k"
  let s := checkInfoStr s f.b9 4 "M"
  let s := checkInfoStr s f.b9 1 "%"
  s

/-- Status byte SB4: every bit contributes a unit label, in source order
V, A, Ω, hFE, Hz, F, °C, °F (bits 7 down to 0). -/
def unitStr (f : Frame) : String :=
  let s := checkInfoStr "" f.b10 7 "V"
  let s := checkInfoStr s f.b10 6 "A"
  let s := checkInfoStr s f.b10 5 "Ω"
  let s := checkInfoStr s f.b10 4 "hFE"
  let s := checkInfoStr s f.b10 3 "Hz"
  let s := checkInfoStr s f.b10 2 "F"
  let s := checkInfoStr s f.b10 1 "°C"
  let s := checkInfoStr s f.b10 0 "°F"
  s

/-- The SI multiplier computation, a sequence of overwriting assignments in
the C source — the later of the two `"k"` lines wins:

    double multToSi = 1;
    if (strequal(prefix, "n")) multToSi = 0.000000001;
    if (strequal(prefix, "µ")) multToSi = 0.000001;
    if (strequal(prefix, "m")) multToSi = 0.001;
    if (strequal(prefix, "k")) multToSi = 1000;
    if (strequal(prefix, "k")) multToSi = 1000000;
-/
def multToSi (p : String) : ℚ :=
  let m : ℚ := 1
  let m := if p = "n" then 1 / 1000000000 else m
  let m := if p = "µ" then 1 / 1000000 else m
  let m := if p = "m" then 1 / 1000 else m
  let m := if p = "k" then 1000 else m
  let m := if p = "k" then 1000000 else m
  m

/-- Value of a list of ASCII digit characters read in base 10. -/
def natOfDigits (l : List Char) : Nat :=
  l.foldl (fun a c => 10 * a + (c.toNat - 48)) 0

/-- C `atof` on the display strings this decoder produces (a run of digits,
an optional point, more digits; for `"OVF"` there are no digits and the
result is `0`).  The C `double` arithmetic is modelled by exact rationals;
on these short decimal strings the two agree. -/
def atofQ (s : String) : ℚ :=
  let l := s.toList
  let ip := l.takeWhile Char.isDigit
  let rest := l.dropWhile Char.isDigit
  let fp := match rest with
    | '.' :: t => t.takeWhile Char.isDigit
    | _ => []
  (natOfDigits ip : ℚ) + (natOfDigits fp : ℚ) / (10 : ℚ) ^ fp.length

/-- Round a nonnegative rational to the nearest integer (half away from
zero), as `snprintf "%f"` does when shortening to 6 decimals; on this
decoder's values no rounding ties arise. -/
def qRoundNat (q : ℚ) : Nat :=
  (((q + 1 / 2).num) / ((q + 1 / 2).den : ℤ)).toNat

/-- Fixed-point rendering with exactly 6 decimals of a nonnegative rational,
as `snprintf("%f", ...)` renders the magnitude of a double. -/
def fixed6 (q : ℚ) : String :=
  let n := qRoundNat (q * 1000000)
  let fracDigits := toString (n % 1000000)
  toString (n / 1000000) ++ "." ++
    String.mk (List.replicate (6 - fracDigits.length) '0') ++ fracDigits

/-- Model of `snprintf("%f", vSi)` where the C double `vSi = mag * sign` with
`mag ≥ 0` and `sign ∈ {1, -1}`: the rendering carries a minus exactly when
the double's sign bit is set, i.e. exactly when `sign = -1` — including the
IEEE negative zero `0.0 * -1 = -0.0`, which prints as `-0.000000`. -/
def formatPercentF (mag : ℚ) (neg : Bool) : String :=
  (if neg then "-" else "") ++ fixed6 mag

/-- The sign decoding of byte 0: `'+'` (0x2b) gives 1, `'-'` (0x2d) gives
-1, anything else leaves the initial 0 (which is then rejected). -/
def signOf (f : Frame) : Int :=
  if f.b0 = 0x2b then 1 else if f.b0 = 0x2d then -1 else 0

/-- C `isdigit` on a byte: an ASCII decimal digit `'0'..'9'`. -/
def isdigitB (n : Nat) : Bool :=
  decide (0x30 ≤ n) && decide (n ≤ 0x39)

/-- The 4 digit bytes 1–4 as a string (the `value` buffer before the point
is inserted). -/
def digitsValue (f : Frame) : String :=
  String.mk [Char.ofNat f.b1, Char.ofNat f.b2, Char.ofNat f.b3, Char.ofNat f.b4]

/-- Decimal-point position from byte 6 (`k` in the C source; `-1`, i.e.
`none`, means no point is inserted):

    if (buf[6] == 0x31) k = 1;
    if (buf[6] == 0x32) k = 2;
    if (buf[6] == 0x33) k = 3;
    if (buf[6] == 0x34) k = 3;
-/
def pointPos (b6 : Nat) : Option Nat :=
  if b6 = 0x31 then some 1
  else if b6 = 0x32 then some 2
  else if b6 = 0x33 then some 3
  else if b6 = 0x34 then some 3
  else none

/-- The `value` buffer of the non-overflow path after the decimal point was
inserted (`if (k != -1) strinsert(value, k, ".")`). -/
def displayValue (f : Frame) : String :=
  match pointPos f.b6 with
  | some k => strinsert (digitsValue f) k "."
  | none => digitsValue f

/-- The success path of `decodeFS9922Paket` after the gates passed: build
the full record from the status bytes, bar-graph byte, and the `value`
string (`"OVF"` with `ovf = true` on the overflow path). -/
def finishDecode (f : Frame) (sign : Int) (ovf : Bool) (value : String) : Vc830 where
  sign := if sign = 1 then '+' else '-'
  rawDisplay := value
  mode := modeStr f
  unit := unitStr f
  pfx := pfxStr f
  fullUnit := pfxStr f ++ unitStr f
  info := infoStr f
  barGraph := f.b11 &&& 0x7f
  barGraphIsShown := Nat.testBit f.b7 0
  batteryWarning := Nat.testBit f.b8 2
  autoRangeActive := Nat.testBit f.b7 5
  holdActive := Nat.testBit f.b7 1
  deltaActive := Nat.testBit f.b7 2
  overflow := ovf
  formatedValue :=
    (if sign = -1 then "-" else "") ++ String.mk (stripLeadingZeros value.toList)
      ++ " " ++ pfxStr f ++ unitStr f
  formatedSiValue :=
    trimZeros (formatPercentF (atofQ value * multToSi (pfxStr f)) (sign = -1))
      ++ " " ++ unitStr f
  siValue := atofQ value * multToSi (pfxStr f) * sign

/-- The call `decodeFS9922Paket(buf, vc830Data)`: the contents of the output struct
after the call together with the error code (`none` = return 0).  The C
function zeroes the struct first, so the struct holds `zeroVc830` on every
error path (no field is written between the `memset` and the three error
returns). -/
def decodeRaw (f : Frame) : Vc830 × Option DecodeError :=
  if f.b5 = 0x20 ∧ f.b12 = 0x0d ∧ f.b13 = 0x0a then
    if signOf f = 0 then (zeroVc830, some DecodeError.invalidSign)
    else if f.b1 = 0x3f ∧ f.b2 = 0x30 ∧ f.b3 = 0x3a ∧ f.b4 = 0x3f then
      (finishDecode f (signOf f) true "OVF", none)
    else if isdigitB f.b1 && isdigitB f.b2 && isdigitB f.b3 && isdigitB f.b4 then
      (finishDecode f (signOf f) false (displayValue f), none)
    else (zeroVc830, some DecodeError.invalidDigit)
  else (zeroVc830, some DecodeError.frameFormat)

/-- The decoder `decode(frame)` as a total function into record-or-error. -/
def decodeFS9922Paket (f : Frame) : Except DecodeError Vc830 :=
  match decodeRaw f with
  | (r, none) => Except.ok r
  | (_, some e) => Except.error e

/-- One call of the C decoder on an output struct that currently holds
`prev`: the `memset` at the top of `decodeFS9922Paket` discards `prev`
before anything else happens, so the result does not depend on it. -/
def decodeInto (_prev : Vc830) (f : Frame) : Vc830 × Option DecodeError :=
  decodeRaw f

/-- What the byte-stream delivers to one `select`/`read` round of
`read14BytesPaket`: a byte (`select` ready, `read` returns 1), a timeout
(`select` returns 0), or end of a replayed capture file (`read` returns 0). -/
inductive StreamEvent where
  | byte (d : Nat)
  | timeout
  | eof
deriving DecidableEq

/-- The two non-error outcomes of `read14BytesPaket`: a full 14-byte frame
(return 0) or `END_OF_CAPTURE_FILE`. -/
inductive ReadResult where
  | frame (bytes : List Nat)
  | endOfCapture
deriving DecidableEq

/-- The `while (1)` loop of `read14BytesPaket`, with `acc` the accumulated
`readBuffer[0..bufIdx)`: a timeout resets `bufIdx` to 0, a byte is
appended and the frame is returned as soon as `bufIdx == 14`, end of the
capture file returns `END_OF_CAPTURE_FILE`.  `none` models a stream whose
event list runs out with the call still blocked. -/
def read14Aux : List StreamEvent → List Nat → Option (ReadResult × List StreamEvent)
  | [], _ => none
  | StreamEvent.timeout :: rest, _ => read14Aux rest []
  | StreamEvent.eof :: rest, _ => some (ReadResult.endOfCapture, rest)
  | StreamEvent.byte d :: rest, acc =>
    let acc2 := acc ++ [d]
    if acc2.length = 14 then some (ReadResult.frame acc2, rest)
    else read14Aux rest acc2

/-- One call of `read14BytesPaket(fd, readBuffer)` starts with `bufIdx = 0`. -/
def read14BytesPaket (evts : List StreamEvent) : Option (ReadResult × List StreamEvent) :=
  read14Aux evts []

/-- The sampling loop of `main`: call `read14BytesPaket` repeatedly,
collecting each returned frame, and stop at `END_OF_CAPTURE_FILE` (or when
the stream model is exhausted).  `fuel` bounds the number of calls (the C
loop bound `count` defaults to `LONG_MAX`); any fuel at least the number of
frames plus one behaves identically. -/
def collectFrames : Nat → List StreamEvent → List (List Nat)
  | 0, _ => []
  | fuel + 1, evts =>
    match read14BytesPaket evts with
    | some (ReadResult.frame bs, rest) => bs :: collectFrames fuel rest
    | _ => []


/-- Success characterization of a decode call: the framing and sign gates
passed, and the record is the one `finishDecode` builds for either the
overflow path or the digit path. -/
theorem decodeRaw_ok (f : Frame) (r : Vc830) (h : decodeRaw f = (r, none)) :
    (f.b5 = 0x20 ∧ f.b12 = 0x0d ∧ f.b13 = 0x0a) ∧ signOf f ≠ 0 ∧
      ((f.b1 = 0x3f ∧ f.b2 = 0x30 ∧ f.b3 = 0x3a ∧ f.b4 = 0x3f) ∧
          r = finishDecode f (signOf f) true "OVF" ∨
        (isdigitB f.b1 = true ∧ isdigitB f.b2 = true ∧ isdigitB f.b3 = true ∧
            isdigitB f.b4 = true) ∧
          r = finishDecode f (signOf f) false (displayValue f)) := by
  unfold decodeRaw at h
  split_ifs at h with h1 h2 h3 h4
  · exact absurd (congrArg Prod.snd h) (by simp)
  · refine ⟨h1, h2, Or.inl ⟨h3, ?_⟩⟩
    exact (congrArg Prod.fst h).symm
  · rcases Bool.and_eq_true_iff.mp h4 with ⟨h44, hd4⟩
    rcases Bool.and_eq_true_iff.mp h44 with ⟨h444, hd3⟩
    rcases Bool.and_eq_true_iff.mp h444 with ⟨hd1, hd2⟩
    exact ⟨h1, h2, Or.inr ⟨⟨hd1, hd2, hd3, hd4⟩, (congrArg Prod.fst h).symm⟩⟩
  · exact absurd (congrArg Prod.snd h) (by simp)
  · exact absurd (congrArg Prod.snd h) (by simp)

theorem decode_ok_iff (f : Frame) (r : Vc830) :
    decodeFS9922Paket f = Except.ok r ↔ decodeRaw f = (r, none) := by
  unfold decodeFS9922Paket
  rcases hd : decodeRaw f with ⟨r0, e⟩
  cases e <;> simp_all

/-- The concrete example frame of the specification: sign `'+'`, digits
`"1234"`, byte 6 = 0x33, SB1 bits 4 (DC) and 5 (AUTO) set, SB4 bit 7 (V)
set, everything else zero. -/
def c1Frame : Frame :=
  ⟨0x2b, 0x31, 0x32, 0x33, 0x34, 0x20, 0x33, 0x30, 0, 0, 0x80, 0, 0x0d, 0x0a⟩

/-- C1: decoding the example frame succeeds with sign `'+'`, mode `"DC"`,
info `"AUTO"`, unit `"V"`, empty prefix, display text `"123.4 V"`,
SI value `123.4` and SI text `"123.4 V"`. -/
theorem c1_example_frame :
    decodeFS9922Paket c1Frame = Except.ok
      { sign := '+', rawDisplay := "123.4", mode := "DC", unit := "V", pfx := "",
        fullUnit := "V", info := "AUTO", barGraph := 0, barGraphIsShown := false,
        batteryWarning := false, autoRangeActive := true, holdActive := false,
        deltaActive := false, overflow := false, formatedValue := "123.4 V",
        formatedSiValue := "123.4 V", siValue := 1234 / 10 } := by
  decide

/-- C5: any frame that passes the framing gate (byte 5 space, CRLF) and the
sign gate and whose bytes 1–4 are the overflow sentinel decodes
successfully with `overflow = true` and digits `"OVF"`, whatever the four
status bytes and byte 6 hold. -/
theorem c5_overflow_sentinel (f : Frame)
    (h5 : f.b5 = 0x20) (h12 : f.b12 = 0x0d) (h13 : f.b13 = 0x0a)
    (h0 : f.b0 = 0x2b ∨ f.b0 = 0x2d)
    (h1 : f.b1 = 0x3f) (h2 : f.b2 = 0x30) (h3 : f.b3 = 0x3a) (h4 : f.b4 = 0x3f) :
    ∃ r, decodeFS9922Paket f = Except.ok r ∧ r.overflow = true ∧ r.rawDisplay = "OVF" := by
  have hs : signOf f ≠ 0 := by
    rcases h0 with h | h <;> simp [signOf, h]
  refine ⟨finishDecode f (signOf f) true "OVF", ?_, rfl, rfl⟩
  rw [decode_ok_iff]
  unfold decodeRaw
  rw [if_pos ⟨h5, h12, h13⟩, if_neg hs, if_pos ⟨h1, h2, h3, h4⟩]

theorem c5_overflow_sentinel_witness :
    ∃ r, decodeFS9922Paket ⟨0x2d, 0x3f, 0x30, 0x3a, 0x3f, 0x20, 0, 0xff, 0xff, 0xff, 0xff, 0, 0x0d, 0x0a⟩
        = Except.ok r ∧ r.overflow = true ∧ r.rawDisplay = "OVF" :=
  c5_overflow_sentinel _ rfl rfl rfl (Or.inr rfl) rfl rfl rfl rfl

/-- C8: every successful decode stores the low 7 bits of byte 11 as
`barGraph` (bit 7 masked off), so `barGraph` is at most 127; in particular
values above 60 pass through unclamped. -/
theorem c8_bar_graph (f : Frame) (r : Vc830) (h : decodeFS9922Paket f = Except.ok r) :
    r.barGraph = f.b11 &&& 0x7f ∧ r.barGraph = f.b11 % 128 ∧ r.barGraph ≤ 127 := by
  have hmask : f.b11 &&& 0x7f = f.b11 % 128 := by
    have := Nat.and_pow_two_sub_one_eq_mod f.b11 7
    norm_num at this
    exact this
  obtain ⟨-, -, hcase⟩ := decodeRaw_ok f r ((decode_ok_iff f r).mp h)
  have hbar : r.barGraph = f.b11 &&& 0x7f := by
    rcases hcase with ⟨-, hr⟩ | ⟨-, hr⟩ <;> rw [hr] <;> rfl
  refine ⟨hbar, by rw [hbar, hmask], ?_⟩
  rw [hbar, hmask]
  exact Nat.le_of_lt_succ (Nat.mod_lt _ (by norm_num))

/-- A frame whose byte 11 is 0xCB = 203: low 7 bits are 75. -/
def c8Frame : Frame :=
  ⟨0x2b, 0x31, 0x32, 0x33, 0x34, 0x20, 0x33, 0, 0, 0, 0x80, 0xcb, 0x0d, 0x0a⟩

theorem c8_bar_graph_witness :
    (decodeRaw c8Frame).1.barGraph = 75 ∧ (decodeRaw c8Frame).1.barGraph ≤ 127 := by
  have h := c8_bar_graph c8Frame (decodeRaw c8Frame).1 (by decide)
  exact ⟨by rw [h.2.1]; decide, h.2.2⟩

/-- C9: the decoder is a pure function of the frame bytes (the C reads the
wall clock only for `receivedAt`, which is outside the record model): equal
frames decode to equal results, fields and errors alike. -/
theorem c9_deterministic (f g : Frame) (h : f = g) :
    decodeFS9922Paket f = decodeFS9922Paket g := by
  rw [h]

theorem c9_deterministic_witness :
    decodeFS9922Paket ⟨0x2b, 0x31, 0x32, 0x33, 0x34, 0x20, 0x33, 0x30, 0, 0, 0x80, 0, 0x0d, 0x0a⟩
      = decodeFS9922Paket ⟨0x2b, 0x31, 0x32, 0x33, 0x34, 0x20, 0x33, 0x30, 0, 0, 0x80, 0, 0x0d, 0x0a⟩ :=
  c9_deterministic _ _ rfl


/-- C7: for a non-overflow success, the decimal point position in the digit
string is a function of byte 6 alone: 0x31 after the first digit, 0x32
after the second, 0x33 and 0x34 both after the third, anything else gives
the plain 4-digit string. -/
theorem c7_decimal_point (f : Frame) (r : Vc830)
    (h : decodeFS9922Paket f = Except.ok r) (hov : r.overflow = false) :
    (f.b6 = 0x31 → r.rawDisplay =
      String.mk [Char.ofNat f.b1, '.', Char.ofNat f.b2, Char.ofNat f.b3, Char.ofNat f.b4]) ∧
    (f.b6 = 0x32 → r.rawDisplay =
      String.mk [Char.ofNat f.b1, Char.ofNat f.b2, '.', Char.ofNat f.b3, Char.ofNat f.b4]) ∧
    (f.b6 = 0x33 ∨ f.b6 = 0x34 → r.rawDisplay =
      String.mk [Char.ofNat f.b1, Char.ofNat f.b2, Char.ofNat f.b3, '.', Char.ofNat f.b4]) ∧
    (f.b6 ≠ 0x31 → f.b6 ≠ 0x32 → f.b6 ≠ 0x33 → f.b6 ≠ 0x34 → r.rawDisplay =
      String.mk [Char.ofNat f.b1, Char.ofNat f.b2, Char.ofNat f.b3, Char.ofNat f.b4]) := by
  obtain ⟨-, -, hcase⟩ := decodeRaw_ok f r ((decode_ok_iff f r).mp h)
  rcases hcase with ⟨-, hr⟩ | ⟨-, hr⟩
  · rw [hr] at hov
    simp [finishDecode] at hov
  subst hr
  refine ⟨?_, ?_, ?_, ?_⟩
  · intro hb6
    have hp : pointPos f.b6 = some 1 := by rw [hb6]; rfl
    show displayValue f = _
    unfold displayValue
    rw [hp]
    rfl
  · intro hb6
    have hp : pointPos f.b6 = some 2 := by rw [hb6]; rfl
    show displayValue f = _
    unfold displayValue
    rw [hp]
    rfl
  · intro hb6
    have hp : pointPos f.b6 = some 3 := by rcases hb6 with hb | hb <;> (rw [hb]; rfl)
    show displayValue f = _
    unfold displayValue
    rw [hp]
    rfl
  · intro h31 h32 h33 h34
    have hp : pointPos f.b6 = none := by
      unfold pointPos
      rw [if_neg h31, if_neg h32, if_neg h33, if_neg h34]
    show displayValue f = _
    unfold displayValue
    rw [hp]
    rfl

/-- A frame with byte 6 = 0x32 and digits "1234". -/
def c7Frame : Frame :=
  ⟨0x2b, 0x31, 0x32, 0x33, 0x34, 0x20, 0x32, 0x30, 0, 0, 0x80, 0, 0x0d, 0x0a⟩

theorem c7_decimal_point_witness : (decodeRaw c7Frame).1.rawDisplay = "12.34" := by
  have h := (c7_decimal_point c7Frame (decodeRaw c7Frame).1 (by decide) (by decide)).2.1 rfl
  exact h

/-- A frame whose only prefix bit is SB3 bit 5, the 'k' label. -/
def c2Frame : Frame :=
  ⟨0x2b, 0x31, 0x32, 0x33, 0x34, 0x20, 0, 0, 0, 0x20, 0x80, 0, 0x0d, 0x0a⟩

/-- C2 fails on the code: the 'k' frame decodes to an SI value of
magnitude × 1 000 000, not magnitude × 1000 — the second of the two
duplicated `strequal(prefix, "k")` assignments overwrites the first. -/
theorem c2_counterexample :
    decodeFS9922Paket c2Frame = Except.ok (decodeRaw c2Frame).1 ∧
    (decodeRaw c2Frame).1.pfx = "k" ∧
    (decodeRaw c2Frame).1.rawDisplay = "1234" ∧
    (decodeRaw c2Frame).1.siValue = 1234000000 ∧
    ¬(decodeRaw c2Frame).1.siValue = 1234 * 1000 := by decide

/-- C2 amended: the multiplier table realized by the code is
{none:1, n:1e-9, µ:1e-6, m:1e-3, k:1e6}, any other prefix string gives 1,
and a frame whose prefix decodes to "k" (e.g. SB3 = 0x20 with SB2 bit 1
clear) yields siValue = parsed magnitude × 1e6 × sign. -/
theorem c2_si_multiplier_amended (f : Frame) (r : Vc830)
    (h : decodeFS9922Paket f = Except.ok r) :
    r.siValue = atofQ r.rawDisplay * multToSi r.pfx * signOf f ∧
    multToSi "" = 1 ∧ multToSi "n" = 1 / 1000000000 ∧ multToSi "µ" = 1 / 1000000 ∧
    multToSi "m" = 1 / 1000 ∧ multToSi "k" = 1000000 ∧
    (∀ p : String, p ≠ "n" → p ≠ "µ" → p ≠ "m" → p ≠ "k" → multToSi p = 1) ∧
    (Nat.testBit f.b8 1 = false → f.b9 = 0x20 →
      r.pfx = "k" ∧ r.siValue = atofQ r.rawDisplay * 1000000 * signOf f) := by
  obtain ⟨-, -, hcase⟩ := decodeRaw_ok f r ((decode_ok_iff f r).mp h)
  have hpfx : r.pfx = pfxStr f := by
    rcases hcase with ⟨-, hr⟩ | ⟨-, hr⟩ <;> rw [hr]
    all_goals rfl
  have hsi : r.siValue = atofQ r.rawDisplay * multToSi (pfxStr f) * signOf f := by
    rcases hcase with ⟨-, hr⟩ | ⟨-, hr⟩ <;> rw [hr]
    all_goals rfl
  refine ⟨by rw [hsi, hpfx], by decide, by decide, by decide, by decide, by decide, ?_, ?_⟩
  · intro p h1 h2 h3 h4
    simp [multToSi, h1, h2, h3, h4]
  · intro hb8 hb9
    have hk : pfxStr f = "k" := by
      simp only [pfxStr, checkInfoStr, hb8, hb9]
      decide
    refine ⟨by rw [hpfx, hk], ?_⟩
    rw [hsi, hk, show multToSi "k" = (1000000 : ℚ) from by decide]

theorem c2_si_multiplier_amended_witness :
    (decodeRaw c2Frame).1.pfx = "k" ∧
    (decodeRaw c2Frame).1.siValue =
      atofQ (decodeRaw c2Frame).1.rawDisplay * 1000000 * signOf c2Frame :=
  (c2_si_multiplier_amended c2Frame (decodeRaw c2Frame).1 (by decide)).2.2.2.2.2.2.2
    (by decide) rfl

/-- A caller-side record holding data from an earlier successful decode. -/
def c4Prev : Vc830 :=
  { zeroVc830 with sign := '+', mode := "DC", rawDisplay := "123.4" }

/-- A frame whose byte 5 is 0x21 instead of the required space. -/
def c4BadFrame : Frame :=
  ⟨0x2b, 0x31, 0x32, 0x33, 0x34, 0x21, 0x33, 0, 0, 0, 0, 0, 0x0d, 0x0a⟩

/-- C4 fails on the code: a failed decode does not leave the caller's
record unchanged — the `memset` at the top of the function clears it. -/
theorem c4_counterexample :
    (decodeInto c4Prev c4BadFrame).2 = some DecodeError.frameFormat ∧
    (decodeInto c4Prev c4BadFrame).1 ≠ c4Prev := by decide

/-- C4 amended: after a failed decode the output struct holds the zeroed
record — no field derived from the failing frame is visible (the error
returns all happen before any field write), but the previous contents are
erased rather than preserved. -/
theorem c4_amended (prev : Vc830) (f : Frame) (e : DecodeError)
    (h : (decodeInto prev f).2 = some e) : (decodeInto prev f).1 = zeroVc830 := by
  unfold decodeInto decodeRaw at h ⊢
  split_ifs at h ⊢ <;> simp_all

theorem c4_amended_witness : (decodeInto c4Prev c4BadFrame).1 = zeroVc830 :=
  c4_amended c4Prev c4BadFrame DecodeError.frameFormat (by decide)

/-- C10: an overflow frame still decodes the status bytes and the bar graph
exactly as a numeric frame does; the SI value is computed from the literal
"OVF", which `atof` parses as 0, and the SI text is "0.0 "/"-0.0 " plus the
unit (the C double `0.0 * -1` is the negative zero, which prints with a
minus). -/
theorem c10_overflow_record (f : Frame) (r : Vc830)
    (h : decodeFS9922Paket f = Except.ok r) (hov : r.overflow = true) :
    r.rawDisplay = "OVF" ∧ r.siValue = 0 ∧
    r.formatedSiValue = (if signOf f = -1 then "-0.0 " else "0.0 ") ++ r.unit ∧
    r.mode = modeStr f ∧ r.pfx = pfxStr f ∧ r.unit = unitStr f ∧ r.info = infoStr f ∧
    r.barGraph = f.b11 &&& 0x7f := by
  obtain ⟨-, -, hcase⟩ := decodeRaw_ok f r ((decode_ok_iff f r).mp h)
  rcases hcase with ⟨-, hr⟩ | ⟨-, hr⟩
  swap
  · rw [hr] at hov
    simp [finishDecode] at hov
  subst hr
  have hovf : atofQ "OVF" = 0 := by decide
  refine ⟨rfl, ?_, ?_, rfl, rfl, rfl, rfl, rfl⟩
  · show atofQ "OVF" * multToSi (pfxStr f) * (signOf f : ℚ) = 0
    rw [hovf, zero_mul, zero_mul]
  · show trimZeros (formatPercentF (atofQ "OVF" * multToSi (pfxStr f)) (signOf f = -1))
        ++ " " ++ unitStr f = _
    rw [hovf, zero_mul]
    by_cases hs : signOf f = -1
    · rw [if_pos hs, show (decide (signOf f = -1)) = true from decide_eq_true hs]
      rw [show trimZeros (formatPercentF 0 true) ++ " " = "-0.0 " from by decide]
      rfl
    · rw [if_neg hs, show (decide (signOf f = -1)) = false from decide_eq_false hs]
      rw [show trimZeros (formatPercentF 0 false) ++ " " = "0.0 " from by decide]
      rfl

/-- A negative overflow frame with unit V and bar-graph byte 5. -/
def c10Frame : Frame :=
  ⟨0x2d, 0x3f, 0x30, 0x3a, 0x3f, 0x20, 0x33, 0, 0, 0, 0x80, 5, 0x0d, 0x0a⟩

theorem c10_overflow_record_witness :
    (decodeRaw c10Frame).1.siValue = 0 ∧
    (decodeRaw c10Frame).1.formatedSiValue =
      (if signOf c10Frame = -1 then "-0.0 " else "0.0 ") ++ (decodeRaw c10Frame).1.unit := by
  have h := c10_overflow_record c10Frame (decodeRaw c10Frame).1 (by decide) (by decide)
  exact ⟨h.2.1, h.2.2.1⟩


theorem stripLeadingZeros_cons (c : Char) (t : List Char) :
    stripLeadingZeros (c :: t) =
      if c = '0' ∧ t.head? ≠ some '.' then stripLeadingZeros t else c :: t := rfl

/-- If the leading-zero strip consumed the whole list, every character in
it was a `'0'`. -/
theorem strip_eq_nil (l : List Char) (h : stripLeadingZeros l = []) : ∀ c ∈ l, c = '0' := by
  induction l with
  | nil => intro c hc; exact absurd hc (List.not_mem_nil c)
  | cons x t ih =>
    rw [stripLeadingZeros_cons] at h
    split_ifs at h with hx
    · intro c hc
      rcases List.mem_cons.mp hc with rfl | hc
      · exact hx.1
      · exact ih h c hc

/-- The leading-zero strip of `digits ++ '.' :: rest` (a nonempty digit run
before the point) always leaves a digit in front: the character before the
point is never removed. -/
theorem strip_digits_dot (pre : List Char) (post : List Char)
    (hpre : pre ≠ []) (hd : ∀ c ∈ pre, c.isDigit = true) :
    ∃ c l, stripLeadingZeros (pre ++ '.' :: post) = c :: l ∧ c.isDigit = true := by
  induction pre with
  | nil => exact absurd rfl hpre
  | cons x t ih =>
    rw [List.cons_append, stripLeadingZeros_cons]
    split_ifs with hx
    · have ht : t ≠ [] := by
        intro he
        subst he
        exact hx.2 rfl
      exact ih ht (fun c hc => hd c (List.mem_cons_of_mem _ hc))
    · exact ⟨x, t ++ '.' :: post, rfl, hd x (List.mem_cons_self x t)⟩

theorem isdigit_char (n : Nat) (h : isdigitB n = true) : (Char.ofNat n).isDigit = true := by
  simp only [isdigitB, Bool.and_eq_true, decide_eq_true_eq] at h
  obtain ⟨h1, h2⟩ := h
  interval_cases n <;> decide

theorem pointPos_cases (b : Nat) :
    pointPos b = none ∨ pointPos b = some 1 ∨ pointPos b = some 2 ∨ pointPos b = some 3 := by
  unfold pointPos
  split_ifs <;> simp

/-- A frame showing "0000" with no decimal point: the display text's digit
portion is stripped away completely, leaving `" V"`. -/
def c6Frame : Frame :=
  ⟨0x2b, 0x30, 0x30, 0x30, 0x30, 0x20, 0x30, 0, 0, 0, 0x80, 0, 0x0d, 0x0a⟩

/-- C6 fails on the code: the claim requires the digit portion of
`displayText` to be nonempty, but an all-zero display with no decimal
point strips to the empty string, producing `" V"`. -/
theorem c6_counterexample :
    decodeFS9922Paket c6Frame = Except.ok (decodeRaw c6Frame).1 ∧
    (decodeRaw c6Frame).1.overflow = false ∧
    (decodeRaw c6Frame).1.formatedValue = " V" := by decide

/-- C6 amended: `displayText` is minus-sign (iff negative), then the digit
string with leading zeros stripped, then a space, prefix and unit; when a
decimal point is present at least one digit survives in front of it, but
when no point was inserted the digit portion is empty exactly for the
all-zero display "0000". -/
theorem c6_display_text_amended (f : Frame) (r : Vc830)
    (h : decodeFS9922Paket f = Except.ok r) (hov : r.overflow = false) :
    r.formatedValue = (if signOf f = -1 then "-" else "")
        ++ String.mk (stripLeadingZeros (displayValue f).toList) ++ " " ++ r.pfx ++ r.unit ∧
    (pointPos f.b6 ≠ none →
      ∃ c l, stripLeadingZeros (displayValue f).toList = c :: l ∧ c.isDigit = true) ∧
    (stripLeadingZeros (displayValue f).toList = [] →
      digitsValue f = "0000" ∧ pointPos f.b6 = none) := by
  obtain ⟨-, -, hcase⟩ := decodeRaw_ok f r ((decode_ok_iff f r).mp h)
  rcases hcase with ⟨-, hr⟩ | ⟨⟨hd1, hd2, hd3, hd4⟩, hr⟩
  · rw [hr] at hov
    simp [finishDecode] at hov
  subst hr
  have ha : (Char.ofNat f.b1).isDigit = true := isdigit_char _ hd1
  have hb : (Char.ofNat f.b2).isDigit = true := isdigit_char _ hd2
  have hc : (Char.ofNat f.b3).isDigit = true := isdigit_char _ hd3
  have hdd : (Char.ofNat f.b4).isDigit = true := isdigit_char _ hd4
  have hpoint : pointPos f.b6 ≠ none →
      ∃ c l, stripLeadingZeros (displayValue f).toList = c :: l ∧ c.isDigit = true := by
    intro hne
    rcases pointPos_cases f.b6 with hp | hp | hp | hp
    · exact absurd hp hne
    · have hl : (displayValue f).toList =
          [Char.ofNat f.b1] ++ '.' :: [Char.ofNat f.b2, Char.ofNat f.b3, Char.ofNat f.b4] := by
        unfold displayValue
        rw [hp]
        rfl
      rw [hl]
      refine strip_digits_dot _ _ (by simp) ?_
      intro c hcm
      rw [List.mem_singleton] at hcm
      subst hcm
      exact ha
    · have hl : (displayValue f).toList =
          [Char.ofNat f.b1, Char.ofNat f.b2] ++ '.' :: [Char.ofNat f.b3, Char.ofNat f.b4] := by
        unfold displayValue
        rw [hp]
        rfl
      rw [hl]
      refine strip_digits_dot _ _ (by simp) ?_
      intro c hcm
      rcases List.mem_cons.mp hcm with rfl | hcm
      · exact ha
      rw [List.mem_singleton] at hcm
      subst hcm
      exact hb
    · have hl : (displayValue f).toList =
          [Char.ofNat f.b1, Char.ofNat f.b2, Char.ofNat f.b3] ++ '.' :: [Char.ofNat f.b4] := by
        unfold displayValue
        rw [hp]
        rfl
      rw [hl]
      refine strip_digits_dot _ _ (by simp) ?_
      intro c hcm
      rcases List.mem_cons.mp hcm with rfl | hcm
      · exact ha
      rcases List.mem_cons.mp hcm with rfl | hcm
      · exact hb
      rw [List.mem_singleton] at hcm
      subst hcm
      exact hc
  refine ⟨rfl, hpoint, ?_⟩
  intro hnil
  rcases pointPos_cases f.b6 with hp | hp | hp | hp
  · have hl : (displayValue f).toList =
        [Char.ofNat f.b1, Char.ofNat f.b2, Char.ofNat f.b3, Char.ofNat f.b4] := by
      unfold displayValue
      rw [hp]
      rfl
    rw [hl] at hnil
    have hall := strip_eq_nil _ hnil
    have e1 := hall (Char.ofNat f.b1) (by simp)
    have e2 := hall (Char.ofNat f.b2) (by simp)
    have e3 := hall (Char.ofNat f.b3) (by simp)
    have e4 := hall (Char.ofNat f.b4) (by simp)
    refine ⟨?_, hp⟩
    unfold digitsValue
    rw [e1, e2, e3, e4]
  all_goals
    obtain ⟨c, l, heq, -⟩ := hpoint (by simp [hp])
    rw [heq] at hnil
    exact absurd hnil (by simp)

/-- A negative frame displaying "01.02" with unit V. -/
def c6WFrame : Frame :=
  ⟨0x2d, 0x30, 0x31, 0x30, 0x32, 0x20, 0x32, 0, 0, 0, 0x80, 0, 0x0d, 0x0a⟩

theorem c6_display_text_amended_witness :
    (decodeRaw c6WFrame).1.formatedValue = (if signOf c6WFrame = -1 then "-" else "")
      ++ String.mk (stripLeadingZeros (displayValue c6WFrame).toList) ++ " "
      ++ (decodeRaw c6WFrame).1.pfx ++ (decodeRaw c6WFrame).1.unit :=
  (c6_display_text_amended c6WFrame (decodeRaw c6WFrame).1 (by decide) (by decide)).1


theorem read14Aux_byte (d : Nat) (rest : List StreamEvent) (acc : List Nat) :
    read14Aux (StreamEvent.byte d :: rest) acc =
      if (acc ++ [d]).length = 14 then some (ReadResult.frame (acc ++ [d]), rest)
      else read14Aux rest (acc ++ [d]) := rfl

/-- Delivering exactly enough bytes to fill the 14-byte buffer returns the
frame and leaves the remaining events unread. -/
theorem read14Aux_fill (xs : List Nat) :
    ∀ (acc : List Nat) (rest : List StreamEvent), xs ≠ [] → acc.length + xs.length = 14 →
      read14Aux (xs.map StreamEvent.byte ++ rest) acc =
        some (ReadResult.frame (acc ++ xs), rest) := by
  induction xs with
  | nil => intro acc rest hne _; exact absurd rfl hne
  | cons d t ih =>
    intro acc rest _ hlen
    rw [List.map_cons, List.cons_append, read14Aux_byte]
    rcases eq_or_ne t [] with ht | ht
    · subst ht
      have h14 : (acc ++ [d]).length = 14 := by
        simp only [List.length_append, List.length_singleton]
        simp only [List.length_cons, List.length_nil] at hlen
        omega
      rw [if_pos h14]
      simp
    · have hne14 : ¬(acc ++ [d]).length = 14 := by
        have ht1 : 0 < t.length := List.length_pos.mpr ht
        simp only [List.length_append, List.length_singleton]
        simp only [List.length_cons] at hlen
        omega
      rw [if_neg hne14, ih (acc ++ [d]) rest ht (by
        simp only [List.length_append, List.length_singleton]
        simp only [List.length_cons] at hlen
        omega)]
      simp [List.append_assoc]

/-- Fewer than 14 bytes followed by a timeout are discarded: the call
continues as if freshly started on the remaining events. -/
theorem read14Aux_discard (xs : List Nat) :
    ∀ (acc : List Nat) (rest : List StreamEvent), acc.length + xs.length < 14 →
      read14Aux (xs.map StreamEvent.byte ++ StreamEvent.timeout :: rest) acc =
        read14Aux rest [] := by
  induction xs with
  | nil => intro acc rest _; rfl
  | cons d t ih =>
    intro acc rest hlen
    rw [List.map_cons, List.cons_append, read14Aux_byte]
    have hne14 : ¬(acc ++ [d]).length = 14 := by
      simp only [List.length_append, List.length_singleton]
      simp only [List.length_cons] at hlen
      omega
    rw [if_neg hne14]
    exact ih (acc ++ [d]) rest (by
      simp only [List.length_append, List.length_singleton]
      simp only [List.length_cons] at hlen
      omega)

theorem collectFrames_frame (fuel : Nat) (evts : List StreamEvent)
    (bs : List Nat) (rest : List StreamEvent)
    (h : read14BytesPaket evts = some (ReadResult.frame bs, rest)) :
    collectFrames (fuel + 1) evts = bs :: collectFrames fuel rest := by
  conv_lhs => rw [collectFrames]
  rw [h]

theorem collectFrames_eoc (fuel : Nat) (evts : List StreamEvent)
    (h : read14BytesPaket evts = some (ReadResult.endOfCapture, [])) :
    collectFrames (fuel + 1) evts = [] := by
  conv_lhs => rw [collectFrames]
  rw [h]

/-- The first 20 bytes of the C3 scenario. -/
def c3First : List Nat :=
  [1, 2, 3, 4, 5, 6, 7, 8, 9, 10, 11, 12, 13, 14, 15, 16, 17, 18, 19, 20]

/-- The 14 bytes delivered after the stall. -/
def c3Last : List Nat :=
  [101, 102, 103, 104, 105, 106, 107, 108, 109, 110, 111, 112, 113, 114]

/-- The C3 scenario: 20 bytes, a timeout, 14 bytes, end of stream. -/
def c3Events : List StreamEvent :=
  c3First.map StreamEvent.byte ++
    StreamEvent.timeout :: (c3Last.map StreamEvent.byte ++ [StreamEvent.eof])

/-- C3 fails on the code: the scenario produces two frames, not one, and
the first frame is built from the first 14 of the 20 pre-stall bytes
(`read14BytesPaket` returns as soon as 14 bytes accumulate, well before the
timeout). -/
theorem c3_counterexample :
    collectFrames 3 c3Events =
      [[1, 2, 3, 4, 5, 6, 7, 8, 9, 10, 11, 12, 13, 14], c3Last] ∧
    (collectFrames 3 c3Events).length ≠ 1 := by decide

/-- C3 amended: a stream of 20 bytes, a longer-than-timeout stall, then 14
bytes yields exactly two frames — the first 14 of the 20 bytes, then the
final 14 bytes; only the 6 bytes pending at the stall are discarded. -/
theorem c3_synchronizer_amended (k : Nat) (xs ys : List Nat)
    (hx : xs.length = 20) (hy : ys.length = 14) :
    collectFrames (k + 3)
        (xs.map StreamEvent.byte ++
          StreamEvent.timeout :: (ys.map StreamEvent.byte ++ [StreamEvent.eof]))
      = [xs.take 14, ys] := by
  have hx14 : (xs.take 14).length = 14 := by
    simp [List.length_take, hx]
  have hxd : (xs.drop 14).length = 6 := by
    simp [List.length_drop, hx]
  have hsplit : xs.map StreamEvent.byte =
      (xs.take 14).map StreamEvent.byte ++ (xs.drop 14).map StreamEvent.byte := by
    rw [← List.map_append, List.take_append_drop]
  have h1 : read14BytesPaket (xs.map StreamEvent.byte ++
        StreamEvent.timeout :: (ys.map StreamEvent.byte ++ [StreamEvent.eof]))
      = some (ReadResult.frame (xs.take 14),
          (xs.drop 14).map StreamEvent.byte ++
            StreamEvent.timeout :: (ys.map StreamEvent.byte ++ [StreamEvent.eof])) := by
    unfold read14BytesPaket
    rw [hsplit, List.append_assoc]
    have hres := read14Aux_fill (xs.take 14) []
      ((xs.drop 14).map StreamEvent.byte ++
        StreamEvent.timeout :: (ys.map StreamEvent.byte ++ [StreamEvent.eof]))
      (List.length_pos.mp (by rw [hx14]; norm_num))
      (by simp [hx14])
    simpa using hres
  have h2 : read14BytesPaket ((xs.drop 14).map StreamEvent.byte ++
        StreamEvent.timeout :: (ys.map StreamEvent.byte ++ [StreamEvent.eof]))
      = some (ReadResult.frame ys, [StreamEvent.eof]) := by
    unfold read14BytesPaket
    rw [read14Aux_discard (xs.drop 14) [] _ (by rw [hxd]; norm_num)]
    have hres := read14Aux_fill ys [] [StreamEvent.eof]
      (List.length_pos.mp (by rw [hy]; norm_num))
      (by simp [hy])
    simpa using hres
  have h3 : read14BytesPaket [StreamEvent.eof] = some (ReadResult.endOfCapture, []) := rfl
  rw [collectFrames_frame (k + 2) _ _ _ h1, collectFrames_frame (k + 1) _ _ _ h2,
    collectFrames_eoc k _ h3]

theorem c3_synchronizer_amended_witness :
    collectFrames 3
        (c3First.map StreamEvent.byte ++
          StreamEvent.timeout :: (c3Last.map StreamEvent.byte ++ [StreamEvent.eof]))
      = [c3First.take 14, c3Last] :=
  c3_synchronizer_amended 0 c3First c3Last (by decide) (by decide)

end VC830
